import Mathlib

/-!
Verification of the wire-level HTTP/1.1 engine of this repository.

Bytes are modelled as natural numbers (`Nat`), byte strings as `List Nat`.
Each definition mirrors one function of the Rust source:

* `ignore_case_eq`, `compare`, `byte_matches` — `src/header.rs` case-insensitive
  byte comparison;
* `HeaderMap` with `get`, `assoc`, `insert` — `src/header.rs`;
* `accept_encoding_from`, `AcceptEncoding.select` — `src/header.rs`;
* `Encoding` with `encoding_try_from`, `encoding_program`,
  `encoding_command_configured` — `src/encoding.rs`;
* `read_until_lf`, `read_segment`, `read_request_line`,
  `parse_header_segment`, `read_exact`, `read_body` — `src/io/reader.rs`
  (the byte source is a finite stream; `read_segment` takes fuel because
  the source loop has no termination guarantee of its own);
* `Body`, `build_response`, `ResponseBuilder`, `Response.compress`,
  `write_response` — `src/body.rs`, `src/lib.rs`, `src/io/writer.rs`
  (the codec subprocess is abstracted by a `ProcEnv` outcome record).
-/

/-- Byte constants used throughout the wire format. -/
def CRLF : List Nat := [13, 10]

def str_bytes (s : List Char) : List Nat := s.map Char.toNat

def CONTENT_LENGTH : List Nat :=
  str_bytes ['C','o','n','t','e','n','t','-','L','e','n','g','t','h']

def CONTENT_LENGTH_LOWER : List Nat :=
  str_bytes ['c','o','n','t','e','n','t','-','l','e','n','g','t','h']

def CONTENT_LENGTH_UPPER : List Nat :=
  str_bytes ['C','O','N','T','E','N','T','-','L','E','N','G','T','H']

def CONTENT_TYPE : List Nat :=
  str_bytes ['C','o','n','t','e','n','t','-','T','y','p','e']

def CONTENT_ENCODING : List Nat :=
  str_bytes ['C','o','n','t','e','n','t','-','E','n','c','o','d','i','n','g']

def TEXT_PLAIN : List Nat :=
  str_bytes ['t','e','x','t','/','p','l','a','i','n']

def OCTET_STREAM : List Nat :=
  str_bytes ['a','p','p','l','i','c','a','t','i','o','n','/',
             'o','c','t','e','t','-','s','t','r','e','a','m']

/-- `u8::is_ascii_alphabetic` from the Rust standard library. -/
def is_ascii_alphabetic (b : Nat) : Bool :=
  decide (65 ≤ b ∧ b ≤ 90) || decide (97 ≤ b ∧ b ≤ 122)

/-- `u8::is_ascii_whitespace`: space, tab, line feed, form feed, carriage return. -/
def is_ascii_whitespace (b : Nat) : Bool :=
  b == 32 || b == 9 || b == 10 || b == 12 || b == 13

/-- `CASE_SHIFT` in `src/header.rs`: distance between the ASCII cases. -/
def CASE_SHIFT : Nat := 32

/-- `ignore_case_eq` in `src/header.rs`: bytes are equal, or both are ASCII
alphabetic and differ exactly by the case distance (`abs_diff`). -/
def ignore_case_eq (x y : Nat) : Bool :=
  x == y ||
    (is_ascii_alphabetic x && is_ascii_alphabetic y && (max x y - min x y == CASE_SHIFT))

/-- `compare` in `src/header.rs`: equal lengths and a pointwise byte check. -/
def byte_compare (cmp : Nat → Nat → Bool) (data target : List Nat) : Bool :=
  data.length == target.length && (List.zip data target).all fun p => cmp p.1 p.2

/-- `BytesExt::matches` (named `byte_matches` here since `matches` is reserved in Lean) in `src/header.rs`. -/
def byte_matches (data target : List Nat) : Bool :=
  byte_compare ignore_case_eq data target

/-- ASCII lower-casing of a single byte (specification device; not in the source). -/
def to_lower_byte (b : Nat) : Nat :=
  if 65 ≤ b ∧ b ≤ 90 then b + CASE_SHIFT else b

/-- `HeaderMap` in `src/header.rs`: an immutable ordered sequence of
name/value byte-string pairs. -/
structure HeaderMap where
  entries : List (List Nat × List Nat)
deriving DecidableEq, Repr

/-- `HeaderMap::get`: the value of the first case-insensitive match, if any. -/
def HeaderMap.get (m : HeaderMap) (key : List Nat) : Option (List Nat) :=
  m.entries.findSome? fun e => if byte_matches e.1 key then some e.2 else none

/-- `HeaderMap::assoc`: a new map with every case-insensitively matching
entry replaced by the pair `(key, val)`; non-matching entries unchanged. -/
def HeaderMap.assoc (m : HeaderMap) (key val : List Nat) : HeaderMap :=
  ⟨m.entries.map fun e => if byte_matches e.1 key then (key, val) else e⟩

/-- `HeaderMap::insert`: delegates to `assoc` with the header's name and value. -/
def HeaderMap.insert (m : HeaderMap) (key val : List Nat) : HeaderMap :=
  m.assoc key val

/-- `Encoding` in `src/encoding.rs`: closed enum of wire-token encodings. -/
inductive Encoding where
  | gzip
  | compress
  | deflate
  | br
  | zstd
deriving DecidableEq, Repr

def GZIP_TOKEN : List Nat := str_bytes ['g','z','i','p']

def COMPRESS_TOKEN : List Nat := str_bytes ['c','o','m','p','r','e','s','s']

def DEFLATE_TOKEN : List Nat := str_bytes ['d','e','f','l','a','t','e']

def BR_TOKEN : List Nat := str_bytes ['b','r']

def ZSTD_TOKEN : List Nat := str_bytes ['z','s','t','d']

/-- `TryFrom for Encoding` in `src/encoding.rs`: exact byte match of the
wire token; anything else is an error (modelled as `none`). -/
def encoding_try_from (l : List Nat) : Option Encoding :=
  if l == GZIP_TOKEN then some .gzip
  else if l == COMPRESS_TOKEN then some .compress
  else if l == DEFLATE_TOKEN then some .deflate
  else if l == BR_TOKEN then some .br
  else if l == ZSTD_TOKEN then some .zstd
  else none

/-- `SystemEncoder::program` for `Encoding` in `src/encoding.rs`. -/
def encoding_program : Encoding → Option (List Nat)
  | .gzip => some GZIP_TOKEN
  | .compress => none
  | .deflate => none
  | .br => some (str_bytes ['b','r','o','t','l','i'])
  | .zstd => some ZSTD_TOKEN

/-- Whether `SystemEncoder::command` for `Encoding` returns `Some`:
exactly when a program is configured. -/
def encoding_command_configured (e : Encoding) : Bool :=
  (encoding_program e).isSome

/-- First index of a byte satisfying `p`, as `Iterator::position` does. -/
def find_pos (p : Nat → Bool) : List Nat → Option Nat
  | [] => none
  | x :: xs => if p x then some 0 else (find_pos p xs).map (· + 1)

/-- First index of byte `b` (`position(|&x| x == b)`). -/
def find_byte (b : Nat) (l : List Nat) : Option Nat :=
  find_pos (fun x => x == b) l

/-- The whitespace skip used by the reader and the `Accept-Encoding` parser:
drop up to the first non-whitespace byte; a list with no non-whitespace byte
is left unchanged. -/
def skip_to_non_ws (l : List Nat) : List Nat :=
  match find_pos (fun b => !is_ascii_whitespace b) l with
  | some i => l.drop i
  | none => l

/-- `From Bytes for AcceptEncoding` in `src/header.rs`: repeatedly take the
token before the first `','`, consume the comma, skip whitespace of the
remainder, and collect the tokens recognized by `Encoding::try_from`;
finally try the remaining token. -/
def accept_encoding_from (value : List Nat) : List Encoding :=
  match h : find_byte 44 value with
  | some pos =>
    let rest := skip_to_non_ws (value.drop (pos + 1))
    (match encoding_try_from (value.take pos) with
     | some e => [e]
     | none => []) ++ accept_encoding_from rest
  | none =>
    match encoding_try_from value with
    | some e => [e]
    | none => []
termination_by value.length
decreasing_by
  have key : ∀ (p : Nat → Bool) (l : List Nat) (i : Nat),
      find_pos p l = some i → i < l.length := by
    intro p l
    induction l with
    | nil => intro i hi; simp [find_pos] at hi
    | cons x xs ih =>
      intro i hi
      simp only [find_pos] at hi
      split at hi
      · cases hi; simp
      · cases hfp : find_pos p xs with
        | none => rw [hfp] at hi; simp at hi
        | some j =>
          rw [hfp] at hi
          simp only [Option.map_some', Option.some.injEq] at hi
          have := ih j hfp
          simp only [List.length_cons]
          omega
  have h1 : pos < value.length := key _ _ _ h
  have h2 : (skip_to_non_ws (value.drop (pos + 1))).length ≤
      (value.drop (pos + 1)).length := by
    unfold skip_to_non_ws
    cases hfp : find_pos (fun b => !is_ascii_whitespace b) (value.drop (pos + 1)) with
    | none => simp
    | some i =>
      simp only [List.length_drop]
      omega
  simp only [List.length_drop] at h2
  omega

/-- `AcceptEncoding::select` in `src/header.rs`: the first parsed encoding
contained in the supported set (the `HashSet` is modelled as a list). -/
def AcceptEncoding.select (encs : List Encoding) (supported : List Encoding) :
    Option Encoding :=
  encs.find? fun e => supported.contains e

/-- `BufRead::read_until(b'\n')` over a finite byte stream: the consumed
chunk up to and including the first line feed (all remaining bytes when no
line feed is left, the empty chunk at end of input), and the rest. -/
def read_until_lf : List Nat → List Nat × List Nat
  | [] => ([], [])
  | b :: bs =>
    if b == 10 then ([b], bs)
    else
      let r := read_until_lf bs
      (b :: r.1, r.2)

/-- Whether a byte string ends with the two-byte `CRLF` terminator
(`ends_with(CRLF)` on the accumulated data). -/
def ends_with_crlf (l : List Nat) : Bool :=
  l.reverse.take 2 == [10, 13]

/-- Whether `CRLF` occurs contiguously anywhere in a byte string. -/
def contains_crlf : List Nat → Bool
  | [] => false
  | [_] => false
  | a :: b :: rest => (a == 13 && b == 10) || contains_crlf (b :: rest)

/-- The loop body of `RequestReader::read_segment` in `src/io/reader.rs`:
`aux` is the accumulated data, `len` the accumulated byte count. The loop
exits only when the last read returned bytes and the accumulated data ends
with `CRLF`; it is given explicit fuel because the source loop does not
terminate at end of input. -/
def read_segment_loop :
    Nat → List Nat → Nat → List Nat → Option (List Nat × Nat × List Nat)
  | 0, _, _, _ => none
  | fuel + 1, aux, len, stream =>
    let r := read_until_lf stream
    let n := r.1.length
    let aux' := aux ++ r.1
    let len' := len + n
    if n > 0 && ends_with_crlf aux' then some (aux', len', r.2)
    else read_segment_loop fuel aux' len' r.2

/-- `RequestReader::read_segment`: accumulated segment, its byte count, and
the unconsumed remainder of the stream. -/
def read_segment (fuel : Nat) (stream : List Nat) :
    Option (List Nat × Nat × List Nat) :=
  read_segment_loop fuel [] 0 stream

/-- The outcome of `freeze_to_whitespace` in `src/io/reader.rs`: the bytes
before the first ASCII whitespace (the whole input when none), and the
remainder with the whitespace run skipped (left as-is when no
non-whitespace byte follows). -/
def freeze_to_whitespace (l : List Nat) : List Nat × List Nat :=
  let cut := (find_pos is_ascii_whitespace l).getD l.length
  (l.take cut, skip_to_non_ws (l.drop cut))

/-- The parsed request line (`RequestLine` in `src/io/reader.rs`). -/
structure RequestLine where
  method : List Nat
  target : List Nat
  version : List Nat
deriving DecidableEq, Repr

/-- `RequestReader::read_request_line`: one segment, trailing `CRLF`
stripped, then three successive whitespace-delimited token extractions. -/
def read_request_line (fuel : Nat) (stream : List Nat) :
    Option (RequestLine × List Nat) :=
  match read_segment fuel stream with
  | none => none
  | some (seg, n, rest) =>
    let line := seg.take (n - 2)
    let m := freeze_to_whitespace line
    let t := freeze_to_whitespace m.2
    let v := freeze_to_whitespace t.2
    some (⟨m.1, t.1, v.1⟩, rest)

def INVALID_HEADER_MSG : List Nat :=
  str_bytes ['i','n','v','a','l','i','d',' ','h','e','a','d','e','r']

/-- The parsing part of `RequestReader::read_header` in `src/io/reader.rs`,
applied to one segment with its trailing `CRLF` already stripped: an empty
segment ends the header block (`none`); a segment without `:` is a hard
parse error; otherwise the name is the bytes before the first `:` and the
value is the bytes after it with the whitespace skip applied. -/
def parse_header_segment (header : List Nat) :
    Except (List Nat) (Option (List Nat × List Nat)) :=
  if header.isEmpty then .ok none
  else
    match find_byte 58 header with
    | none => .error INVALID_HEADER_MSG
    | some colon =>
      let value := skip_to_non_ws (header.drop (colon + 1))
      .ok (some (header.take colon, value))

/-- `str::parse::<usize>` on a header value: an optional leading `+`, then
one or more ASCII digits. -/
def parse_nat_digits : List Nat → Option Nat
  | [] => none
  | l =>
    if l.all (fun b => 48 ≤ b && b ≤ 57) then
      some (l.foldl (fun acc b => acc * 10 + (b - 48)) 0)
    else none

def parse_nat (l : List Nat) : Option Nat :=
  match l with
  | 43 :: rest => parse_nat_digits rest
  | _ => parse_nat_digits l

/-- `HeaderMap::read::<usize>`: `get` then parse, `none` on any failure. -/
def HeaderMap.read_nat (m : HeaderMap) (key : List Nat) : Option Nat :=
  (m.get key).bind parse_nat

/-- The `Content-Length` determination in `RequestReader::read_request`:
`headers.read(CONTENT_LENGTH).unwrap_or_default()`. -/
def content_length_of (m : HeaderMap) : Nat :=
  (m.read_nat CONTENT_LENGTH).getD 0

/-- `Body` in `src/body.rs`: an owned in-memory buffer or a file with its
captured metadata (path, content snapshot, and size captured at open). -/
structure FileBody where
  path : List Nat
  content : List Nat
  meta_len : Nat
deriving DecidableEq, Repr

inductive Body where
  | bytes (data : List Nat)
  | file (fb : FileBody)
deriving DecidableEq, Repr

/-- `Body::empty`. -/
def Body.empty : Body := .bytes []

/-- `Body::file`: the metadata size is snapshotted from the opened file. -/
def Body.mk_file (path content : List Nat) : Body :=
  .file ⟨path, content, content.length⟩

/-- `Body::len`: no I/O — the buffer length or the captured metadata size. -/
def Body.len : Body → Nat
  | .bytes data => data.length
  | .file fb => fb.meta_len

/-- The bytes a writer actually emits for this body (`src/io/writer.rs`:
the buffer for `Bytes`, the streamed file content for `File`). -/
def Body.payload : Body → List Nat
  | .bytes data => data
  | .file fb => fb.content

/-- `read_exact` of the buffered reader over a stream of chunks: consume
exactly `n` bytes, retrying over as many chunks as needed, an error
(`none`) when the stream ends first; an unread chunk remainder stays
buffered. -/
def read_exact (chunks : List (List Nat)) (n : Nat) :
    Option (List Nat × List (List Nat)) :=
  match chunks with
  | [] => if n = 0 then some ([], []) else none
  | c :: rest =>
    if n = 0 then some ([], chunks)
    else if n ≤ c.length then some (c.take n, c.drop n :: rest)
    else
      match read_exact rest (n - c.length) with
      | some (bs, rem) => some (c ++ bs, rem)
      | none => none

/-- `RequestReader::read_body` in `src/io/reader.rs`: zero length means the
empty body with no read performed; otherwise exactly `len` bytes are read
into an owned in-memory body. -/
def read_body (len : Nat) (chunks : List (List Nat)) :
    Option (Body × List (List Nat)) :=
  if len = 0 then some (Body.empty, chunks)
  else (read_exact chunks len).map fun r => (Body.bytes r.1, r.2)

/-- `StatusCode` in `src/lib.rs`: only the five declared constants are
constructible (the inner numeric field is private). -/
inductive StatusCode where
  | ok
  | created
  | bad_request
  | not_found
  | internal_server_error
deriving DecidableEq, Repr

def StatusCode.as_u16 : StatusCode → Nat
  | .ok => 200
  | .created => 201
  | .bad_request => 400
  | .not_found => 404
  | .internal_server_error => 500

def StatusCode.as_str : StatusCode → List Nat
  | .ok => str_bytes ['O','K']
  | .created => str_bytes ['C','r','e','a','t','e','d']
  | .bad_request => str_bytes ['B','a','d',' ','R','e','q','u','e','s','t']
  | .not_found => str_bytes ['N','o','t',' ','F','o','u','n','d']
  | .internal_server_error =>
      str_bytes ['I','n','t','e','r','n','a','l',' ','S','e','r','v','e','r',
                 ' ','E','r','r','o','r']

/-- Decimal byte representation of a number (`u64::to_string`); the source
special-cases zero to the literal byte string `0`, which coincides. -/
def content_length_bytes (n : Nat) : List Nat :=
  match n with
  | 0 => [48]
  | n => (Nat.toDigits 10 n).map Char.toNat

/-- `Response` in `src/lib.rs`. -/
structure Response where
  version : List Nat
  status : StatusCode
  headers : HeaderMap
  body : Body
deriving DecidableEq, Repr

/-- `std::collections::HashMap::insert` over the builder's header map,
modelled as an association list with exact-key replacement. -/
def hash_insert (m : List (List Nat × List Nat)) (k v : List Nat) :
    List (List Nat × List Nat) :=
  if m.any (fun e => e.1 == k) then
    m.map fun e => if e.1 == k then (k, v) else e
  else m ++ [(k, v)]

/-- `ResponseBuilder` in `src/lib.rs`. -/
structure ResponseBuilder where
  version : List Nat
  status : StatusCode
  headers : List (List Nat × List Nat)
  body : List Nat
deriving DecidableEq, Repr

/-- `ResponseBuilder::status`. -/
def ResponseBuilder.with_status (b : ResponseBuilder) (s : StatusCode) :
    ResponseBuilder :=
  { b with status := s }

/-- `ResponseBuilder::header`. -/
def ResponseBuilder.header (b : ResponseBuilder) (name value : List Nat) :
    ResponseBuilder :=
  { b with headers := hash_insert b.headers name value }

/-- `ResponseBuilder::build_response`: insert/overwrite the final
`Content-Length` computed from the body, then freeze the header map. -/
def build_response (version : List Nat) (status : StatusCode)
    (headers : List (List Nat × List Nat)) (body : Body) : Response :=
  { version := version
    status := status
    headers := ⟨hash_insert headers CONTENT_LENGTH (content_length_bytes body.len)⟩
    body := body }

/-- `ResponseBuilder::plain`. -/
def ResponseBuilder.plain (b : ResponseBuilder) (data : List Nat) : Response :=
  let b := b.header CONTENT_TYPE TEXT_PLAIN
  build_response b.version b.status b.headers (Body.bytes data)

/-- `ResponseBuilder::empty`. -/
def ResponseBuilder.empty (b : ResponseBuilder) : Response :=
  b.plain []

/-- `ResponseBuilder::build`. -/
def ResponseBuilder.build (b : ResponseBuilder) : Response :=
  build_response b.version b.status b.headers (Body.bytes b.body)

/-- The I/O error kinds distinguished by `ResponseBuilder::file`. -/
inductive IOErrorKind where
  | not_found
  | permission_denied
  | other
deriving DecidableEq, Repr

/-- The error-kind test in `ResponseBuilder::file`:
`matches!(e.kind(), ErrorKind::NotFound | ErrorKind::PermissionDenied)`. -/
def io_error_is_404 (k : IOErrorKind) : Bool :=
  k == .not_found || k == .permission_denied

/-- `ResponseBuilder::file` in `src/lib.rs`. The filesystem collaborator is
abstracted: `open_result` is the outcome of the `open` call and
`meta_result` the outcome of `Body::file`'s metadata query, carrying the
file content on success. -/
def ResponseBuilder.file (b : ResponseBuilder) (path : List Nat)
    (open_result : Except IOErrorKind Unit)
    (meta_result : Except IOErrorKind (List Nat)) : Response :=
  match open_result with
  | .error k =>
    if io_error_is_404 k then (b.with_status .not_found).empty
    else (b.with_status .internal_server_error).empty
  | .ok _ =>
    match meta_result with
    | .error k =>
      if io_error_is_404 k then (b.with_status .not_found).empty
      else (b.with_status .internal_server_error).empty
    | .ok content =>
      let b := b.header CONTENT_TYPE OCTET_STREAM
      build_response b.version b.status b.headers (Body.mk_file path content)

def NOT_CONFIGURED_MSG : List Nat :=
  str_bytes ['p','r','o','g','r','a','m',' ','i','s',' ','n','o','t',' ',
             'c','o','n','f','i','g','u','r','e','d']

def SPAWN_MSG : List Nat :=
  str_bytes ['s','p','a','w','n',' ','p','r','o','g','r','a','m']

def WRITE_INPUT_MSG : List Nat :=
  str_bytes ['w','r','i','t','e',' ','p','r','o','g','r','a','m',' ',
             'i','n','p','u','t']

def FLUSH_INPUT_MSG : List Nat :=
  str_bytes ['f','l','u','s','h',' ','p','r','o','g','r','a','m',' ',
             'i','n','p','u','t']

def WAIT_MSG : List Nat :=
  str_bytes ['w','a','i','t',' ','f','o','r',' ','p','r','o','g','r','a','m',
             ' ','o','u','t','p','u','t']

/-- The observable behaviour of the codec subprocess for one invocation:
whether spawning succeeds, whether the two stdin steps succeed (consulted
only for in-memory bodies), and the awaited outcome — an I/O failure or
the exit code together with the captured standard output. -/
structure ProcEnv where
  spawn_ok : Bool
  write_ok : Bool
  flush_ok : Bool
  wait_result : Except Unit (Nat × List Nat)

/-- `SystemEncoder::compress` in `src/encoding.rs`: errors for a missing
program configuration, spawn failure, stdin write/flush failure (in-memory
bodies only) and wait failure; otherwise the captured stdout becomes the
new body — the exit status is only logged, never turned into an error. -/
def system_compress (enc : Encoding) (body : Body) (env : ProcEnv) :
    Except (List Nat) Body :=
  if encoding_command_configured enc = false then .error NOT_CONFIGURED_MSG
  else if env.spawn_ok = false then .error SPAWN_MSG
  else
    let stdin_step : Except (List Nat) Unit :=
      match body with
      | Body.bytes _ =>
        if env.write_ok = false then .error WRITE_INPUT_MSG
        else if env.flush_ok = false then .error FLUSH_INPUT_MSG
        else .ok ()
      | Body.file _ => .ok ()
    match stdin_step with
    | .error e => .error e
    | .ok _ =>
      match env.wait_result with
      | .error _ => .error WAIT_MSG
      | .ok r => .ok (Body.bytes r.2)

/-- `HeaderMap::extract::<ContentEncoding>()`: `get` the
`Content-Encoding` header and convert it via `Encoding::try_from`. -/
def content_encoding_of (m : HeaderMap) : Option Encoding :=
  (m.get CONTENT_ENCODING).bind encoding_try_from

/-- `Response::compress` in `src/lib.rs`: no `Content-Encoding` header (or
an unrecognized one) returns the response unchanged; a compression error
degrades to a 500 `text/plain` response whose body is the error
description (headers built by `HeaderMapBuilder`, which appends); success
replaces the body and overwrites `Content-Length` via `HeaderMap::insert`. -/
def Response.compress (r : Response) (env : ProcEnv) : Response :=
  match content_encoding_of r.headers with
  | none => r
  | some enc =>
    match system_compress enc r.body env with
    | .error err =>
      let body := Body.bytes err
      { version := r.version
        status := .internal_server_error
        headers := ⟨[(CONTENT_TYPE, TEXT_PLAIN),
                     (CONTENT_LENGTH, content_length_bytes body.len)]⟩
        body := body }
    | .ok body =>
      { version := r.version
        status := r.status
        headers := r.headers.insert CONTENT_LENGTH (content_length_bytes body.len)
        body := body }

/-- One serialized header line (`ResponseWriter::write_header`). -/
def header_line (e : List Nat × List Nat) : List Nat :=
  e.1 ++ [58, 32] ++ e.2 ++ CRLF

/-- The serialized header block (`ResponseWriter::write_headers`), one line
per entry in stored order. -/
def header_lines (m : HeaderMap) : List (List Nat) :=
  m.entries.map header_line

/-- The serialized status line (`ResponseWriter::write_status_line`). -/
def status_line_bytes (r : Response) : List Nat :=
  r.version ++ [32] ++ content_length_bytes r.status.as_u16 ++ [32]
    ++ r.status.as_str ++ CRLF

/-- `ResponseWriter::write_response` in `src/io/writer.rs`: compress, then
serialize status line, header block, blank line and body payload. -/
def write_response (r : Response) (env : ProcEnv) : List Nat :=
  let r := r.compress env
  status_line_bytes r ++ (header_lines r.headers).flatten ++ CRLF ++ r.body.payload

/-- The header block `write_response` serializes for a response: the header
lines of the response after the compression step. -/
def serialized_headers (r : Response) (env : ProcEnv) : List (List Nat) :=
  header_lines (r.compress env).headers

/-- The body bytes `write_response` actually emits for a response: the
payload of the body after the compression step. -/
def written_body (r : Response) (env : ProcEnv) : List Nat :=
  (r.compress env).body.payload

/-- Splitting a byte string on the `,` separator (specification device for
the amended `Accept-Encoding` claim; not in the source). -/
def split_comma : List Nat → List (List Nat)
  | [] => [[]]
  | b :: bs =>
    if b == 44 then [] :: split_comma bs
    else
      match split_comma bs with
      | t :: ts => (b :: t) :: ts
      | [] => [[b]]

/-- Specification rendering of the amended `Accept-Encoding` parsing
claim: split on `,`, take the first token verbatim, trim the leading
whitespace of every later token, and keep the recognized encodings in
order — duplicates preserved. -/
def accept_encoding_spec (v : List Nat) : List Encoding :=
  match split_comma v with
  | [] => []
  | t :: ts =>
    List.filterMap encoding_try_from
      (t :: ts.map fun s => s.dropWhile is_ascii_whitespace)

theorem ignore_case_eq_eq_to_lower (x y : Nat) :
    ignore_case_eq x y = (to_lower_byte x == to_lower_byte y) := by
  simp only [ignore_case_eq, is_ascii_alphabetic, to_lower_byte, CASE_SHIFT]
  rw [Bool.eq_iff_iff]
  simp only [Bool.or_eq_true, Bool.and_eq_true, beq_iff_eq, decide_eq_true_eq]
  split <;> split <;> omega

theorem BM_eq_map_to_lower (data target : List Nat) :
    byte_matches data target = (data.map to_lower_byte == target.map to_lower_byte) := by
  induction data generalizing target with
  | nil =>
    cases target <;> simp [byte_matches, byte_compare]
  | cons x xs ih =>
    cases target with
    | nil => simp [byte_matches, byte_compare]
    | cons y ys =>
      have := ih ys
      simp only [byte_matches, byte_compare, List.length_cons, List.zip_cons_cons,
        List.all_cons, List.map_cons, List.cons_beq_cons] at *
      rw [ignore_case_eq_eq_to_lower]
      rw [Bool.eq_iff_iff] at this ⊢
      simp only [Bool.and_eq_true, beq_iff_eq, Nat.succ_inj] at *
      tauto

theorem byte_matches_refl (l : List Nat) : byte_matches l l = true := by
  rw [BM_eq_map_to_lower]; simp

theorem get_congr (m : HeaderMap) (k k' : List Nat)
    (h : ∀ n, byte_matches n k = byte_matches n k') : m.get k = m.get k' := by
  unfold HeaderMap.get
  induction m.entries with
  | nil => rfl
  | cons e es ih => simp only [List.findSome?_cons, h e.1, ih]

theorem find_pos_lt_length (p : Nat → Bool) (l : List Nat) (i : Nat)
    (h : find_pos p l = some i) : i < l.length := by
  induction l generalizing i with
  | nil => simp [find_pos] at h
  | cons x xs ih =>
    simp only [find_pos] at h
    split at h
    · cases h; simp
    · cases hfp : find_pos p xs with
      | none => simp [hfp] at h
      | some j =>
        rw [hfp] at h
        simp only [Option.map_some', Option.some.injEq] at h
        have := ih j hfp
        simp only [List.length_cons]
        omega

theorem skip_to_non_ws_length (l : List Nat) :
    (skip_to_non_ws l).length ≤ l.length := by
  unfold skip_to_non_ws
  cases h : find_pos (fun b => !is_ascii_whitespace b) l with
  | none => simp
  | some i => simp

theorem accept_encoding_from_comma (v : List Nat) (pos : Nat)
    (h : find_byte 44 v = some pos) :
    accept_encoding_from v =
      (match encoding_try_from (v.take pos) with
       | some e => [e]
       | none => []) ++
      accept_encoding_from (skip_to_non_ws (v.drop (pos + 1))) := by
  rw [accept_encoding_from.eq_def]
  split
  · next pos' h' =>
    rw [h] at h'
    cases h'
    rfl
  · next h' => rw [h] at h'; cases h'

theorem accept_encoding_from_last (v : List Nat)
    (h : find_byte 44 v = none) :
    accept_encoding_from v =
      match encoding_try_from v with
      | some e => [e]
      | none => [] := by
  rw [accept_encoding_from.eq_def]
  split
  · next pos' h' => rw [h] at h'; cases h'
  · rfl

theorem map_to_lower_cl_lower :
    CONTENT_LENGTH_LOWER.map to_lower_byte = CONTENT_LENGTH.map to_lower_byte := by
  decide

theorem map_to_lower_cl_upper :
    CONTENT_LENGTH.map to_lower_byte = CONTENT_LENGTH_UPPER.map to_lower_byte := by
  decide

/-- Claim C7: for every `HeaderMap` containing a `Content-Length` entry
under any casing, `get` with the all-lowercase, canonical, and
all-uppercase spellings of the name returns the same result (the value of
the first case-insensitive match); the byte comparison is ASCII-only: two
bytes match iff identical, or both ASCII alphabetic and differing exactly
by the case distance, so a non-alphabetic byte compares only for exact
equality. -/
theorem claim_C7 (m : HeaderMap)
    (h : ∃ e ∈ m.entries, byte_matches e.1 CONTENT_LENGTH = true) :
    (m.get CONTENT_LENGTH_LOWER = m.get CONTENT_LENGTH ∧
      m.get CONTENT_LENGTH = m.get CONTENT_LENGTH_UPPER) ∧
    (∀ x y : Nat,
      is_ascii_alphabetic x = false ∨ is_ascii_alphabetic y = false →
        (ignore_case_eq x y = true ↔ x = y)) ∧
    (∀ x y : Nat, ignore_case_eq x y = true ↔
      x = y ∨ (is_ascii_alphabetic x = true ∧ is_ascii_alphabetic y = true ∧
        max x y - min x y = CASE_SHIFT)) := by
  refine ⟨⟨?_, ?_⟩, ?_, ?_⟩
  · exact get_congr m _ _ fun n => by
      rw [BM_eq_map_to_lower, BM_eq_map_to_lower, map_to_lower_cl_lower]
  · exact get_congr m _ _ fun n => by
      rw [BM_eq_map_to_lower, BM_eq_map_to_lower, map_to_lower_cl_upper]
  · rintro x y (hx | hy)
    · simp [ignore_case_eq, hx]
    · simp [ignore_case_eq, hy]
  · intro x y
    simp only [ignore_case_eq, Bool.or_eq_true, Bool.and_eq_true, beq_iff_eq]
    tauto

theorem claim_C7_witness :
    (HeaderMap.mk [(CONTENT_LENGTH_UPPER, [52, 50])]).get CONTENT_LENGTH_LOWER =
      (HeaderMap.mk [(CONTENT_LENGTH_UPPER, [52, 50])]).get CONTENT_LENGTH ∧
    (HeaderMap.mk [(CONTENT_LENGTH_UPPER, [52, 50])]).get CONTENT_LENGTH =
      (HeaderMap.mk [(CONTENT_LENGTH_UPPER, [52, 50])]).get CONTENT_LENGTH_UPPER :=
  (claim_C7 ⟨[(CONTENT_LENGTH_UPPER, [52, 50])]⟩
    ⟨(CONTENT_LENGTH_UPPER, [52, 50]), by decide, by decide⟩).1

/-- Claim C6 counterexample: `HeaderMap::insert` on a map with no matching
entry does NOT append the pair — on the empty map it returns the empty map
and the inserted pair is absent, contradicting the claim that insert
appends `(k, v)` when no entry of the map matches `k`. -/
theorem claim_C6_counterexample :
    HeaderMap.insert ⟨[]⟩ CONTENT_LENGTH [53] = ⟨[]⟩ ∧
    (CONTENT_LENGTH, [53]) ∉ (HeaderMap.insert ⟨[]⟩ CONTENT_LENGTH [53]).entries := by
  constructor
  · rfl
  · intro h
    simp [HeaderMap.insert, HeaderMap.assoc] at h

theorem map_no_match_eq_self (k v : List Nat) (l : List (List Nat × List Nat))
    (hl : (l.all fun e => !byte_matches e.1 k) = true) :
    (l.map fun e => if byte_matches e.1 k then (k, v) else e) = l := by
  induction l with
  | nil => rfl
  | cons e es ih =>
    simp only [List.all_cons, Bool.and_eq_true, Bool.not_eq_true'] at hl
    simp only [List.map_cons, hl.1, ih hl.2, Bool.false_eq_true, if_false]

/-- Claim C6, amended: `assoc` and `insert` coincide and return a new map
in which every entry whose name matches `k` ignoring ASCII case is
replaced by the pair `(k, v)` and every other entry is unchanged (entry
count and positions preserved); when no entry of `m` matches `k`, the
result equals `m` — the pair `(k, v)` is NOT appended. The original map is
unchanged (all operations are pure copies). -/
theorem claim_C6_amended (m : HeaderMap) (k v : List Nat) :
    m.insert k v = m.assoc k v ∧
    (∀ i : Nat, (m.assoc k v).entries[i]? =
      (m.entries[i]?).map fun e => if byte_matches e.1 k then (k, v) else e) ∧
    ((m.entries.all fun e => !byte_matches e.1 k) = true → m.insert k v = m) := by
  refine ⟨rfl, ?_, ?_⟩
  · intro i
    simp [HeaderMap.assoc, List.getElem?_map]
  · intro h
    cases m with
    | mk entries =>
      simp only [HeaderMap.insert, HeaderMap.assoc, HeaderMap.mk.injEq]
      exact map_no_match_eq_self k v entries h

theorem claim_C6_witness :
    HeaderMap.insert ⟨[([88], [49])]⟩ CONTENT_LENGTH [53] = ⟨[([88], [49])]⟩ :=
  (claim_C6_amended ⟨[([88], [49])]⟩ CONTENT_LENGTH [53]).2.2 (by decide)

theorem find_pos_none_iff (p : Nat → Bool) (l : List Nat) :
    find_pos p l = none ↔ (l.all fun x => !p x) = true := by
  induction l with
  | nil => simp [find_pos]
  | cons x xs ih =>
    simp only [find_pos, List.all_cons, Bool.and_eq_true, Bool.not_eq_true']
    by_cases hx : p x = true
    · simp [hx]
    · have hx' : p x = false := by simpa using hx
      simp only [hx, Bool.false_eq_true, if_false, Option.map_eq_none', hx']
      rw [ih]
      simp

theorem find_pos_some_drop (p : Nat → Bool) (l : List Nat) (i : Nat)
    (h : find_pos p l = some i) :
    l.drop i = l.dropWhile fun x => !p x := by
  induction l generalizing i with
  | nil => simp [find_pos] at h
  | cons x xs ih =>
    simp only [find_pos] at h
    by_cases hx : p x = true
    · rw [if_pos hx] at h
      cases h
      simp [List.dropWhile_cons, hx]
    · have hx' : p x = false := by simpa using hx
      rw [if_neg hx] at h
      cases hfp : find_pos p xs with
      | none => rw [hfp] at h; simp at h
      | some j =>
        rw [hfp] at h
        simp only [Option.map_some', Option.some.injEq] at h
        subst h
        simp only [List.drop_succ_cons, List.dropWhile_cons, hx', Bool.not_false,
          if_true]
        exact ih j hfp

theorem skip_to_non_ws_eq_dropWhile (l : List Nat) :
    skip_to_non_ws l =
      if (l.all is_ascii_whitespace) = true then l
      else l.dropWhile is_ascii_whitespace := by
  unfold skip_to_non_ws
  cases hfp : find_pos (fun b => !is_ascii_whitespace b) l with
  | none =>
    have hall := (find_pos_none_iff _ l).mp hfp
    simp only [Bool.not_not] at hall
    rw [if_pos hall]
  | some i =>
    have hd := find_pos_some_drop _ l i hfp
    have hnall : ¬(l.all is_ascii_whitespace) = true := by
      intro hall
      have hnone : find_pos (fun b => !is_ascii_whitespace b) l = none :=
        (find_pos_none_iff _ l).mpr (by simpa [Bool.not_not] using hall)
      rw [hnone] at hfp
      cases hfp
    rw [if_neg hnall]
    show l.drop i = l.dropWhile is_ascii_whitespace
    rw [hd]
    simp only [Bool.not_not]

/-- Claim C5 counterexample: for the header segment `X:` followed by two
spaces, the value consists entirely of whitespace and the stored value is
the two spaces unchanged — not the empty string that removing the leading
whitespace run would produce. This contradicts the claim that the leading
whitespace run is removed for every value including all-whitespace ones. -/
theorem claim_C5_counterexample :
    parse_header_segment [88, 58, 32, 32] = .ok (some ([88], [32, 32])) ∧
    ¬([32, 32] : List Nat) = List.dropWhile is_ascii_whitespace [32, 32] := by
  constructor
  · rfl
  · decide

/-- Claim C5, amended: for every non-empty header segment containing a
`:`, the stored value is the substring after the first `:` with its run of
leading ASCII whitespace removed when the value contains any
non-whitespace byte; a value consisting entirely of whitespace is stored
unchanged (nothing is removed). A non-empty segment without a `:` is a
hard parse error (`invalid header`). -/
theorem claim_C5_amended (seg : List Nat) (hne : seg ≠ []) :
    (find_byte 58 seg = none →
      parse_header_segment seg = .error INVALID_HEADER_MSG) ∧
    (∀ colon, find_byte 58 seg = some colon →
      parse_header_segment seg =
        .ok (some (seg.take colon,
          if ((seg.drop (colon + 1)).all is_ascii_whitespace) = true then
            seg.drop (colon + 1)
          else (seg.drop (colon + 1)).dropWhile is_ascii_whitespace))) := by
  have hemp : seg.isEmpty = false := by
    cases seg with
    | nil => exact absurd rfl hne
    | cons x xs => rfl
  constructor
  · intro h
    simp [parse_header_segment, hemp, h]
  · intro colon h
    simp [parse_header_segment, hemp, h, skip_to_non_ws_eq_dropWhile]

theorem claim_C5_witness :
    ([88, 58, 32, 97] : List Nat) ≠ [] ∧
    parse_header_segment [88, 58, 32, 97] = .ok (some ([88], [97])) ∧
    parse_header_segment [88, 88] = .error INVALID_HEADER_MSG := by
  refine ⟨by decide, ?_, ?_⟩
  · have := (claim_C5_amended [88, 58, 32, 97] (by decide)).2 1 (by decide)
    simpa using this
  · exact (claim_C5_amended [88, 88] (by decide)).1 (by decide)

theorem read_until_lf_append (stream : List Nat) :
    (read_until_lf stream).1 ++ (read_until_lf stream).2 = stream := by
  induction stream with
  | nil => rfl
  | cons b bs ih =>
    simp only [read_until_lf]
    by_cases hb : (b == 10) = true
    · simp [hb]
    · simp only [hb, Bool.false_eq_true, if_false, List.cons_append, List.cons.injEq,
        true_and]
      exact ih

theorem ends_with_crlf_exists (l : List Nat) (h : ends_with_crlf l = true) :
    ∃ p, l = p ++ [13, 10] := by
  unfold ends_with_crlf at h
  have hrev : l.reverse = 10 :: 13 :: l.reverse.drop 2 := by
    cases hl : l.reverse with
    | nil => rw [hl] at h; simp at h
    | cons a t =>
      cases t with
      | nil => rw [hl] at h; simp at h
      | cons b t2 =>
        rw [hl] at h
        simp only [List.take_cons, List.take, List.cons_beq_cons, List.beq_nil_iff,
          Bool.and_eq_true, beq_iff_eq] at h
        simp [hl, h.1, h.2.1]
  refine ⟨(l.reverse.drop 2).reverse, ?_⟩
  calc l = l.reverse.reverse := by simp
    _ = (10 :: 13 :: l.reverse.drop 2).reverse := by rw [← hrev]
    _ = (l.reverse.drop 2).reverse ++ [13, 10] := by simp

theorem contains_crlf_of_mid (p q : List Nat) :
    contains_crlf (p ++ 13 :: 10 :: q) = true := by
  induction p with
  | nil => simp [contains_crlf]
  | cons x xs ih =>
    cases xs with
    | nil => simp [contains_crlf]
    | cons y ys =>
      simp only [List.cons_append] at *
      simp [contains_crlf, ih]

theorem read_segment_loop_none (fuel : Nat) (aux : List Nat) (len : Nat)
    (stream : List Nat) (h : contains_crlf (aux ++ stream) = false) :
    read_segment_loop fuel aux len stream = none := by
  induction fuel generalizing aux len stream with
  | zero => rfl
  | succ fuel ih =>
    simp only [read_segment_loop]
    have hsplit : aux ++ stream =
        (aux ++ (read_until_lf stream).1) ++ (read_until_lf stream).2 := by
      rw [List.append_assoc, read_until_lf_append]
    by_cases hc :
        ((read_until_lf stream).1.length > 0 &&
          ends_with_crlf (aux ++ (read_until_lf stream).1)) = true
    · exfalso
      have hew := (Bool.and_eq_true .. ▸ hc).2
      obtain ⟨p, hp⟩ := ends_with_crlf_exists _ hew
      rw [hsplit, hp, List.append_assoc] at h
      simp only [List.cons_append, List.nil_append] at h
      rw [contains_crlf_of_mid] at h
      cases h
    · simp only [hc, if_false, Bool.false_eq_true]
      exact ih _ _ _ (by rw [← hsplit]; exact h)

theorem read_segment_loop_some_ends (fuel : Nat) (aux : List Nat) (len : Nat)
    (stream seg : List Nat) (n : Nat) (rest : List Nat)
    (h : read_segment_loop fuel aux len stream = some (seg, n, rest)) :
    ends_with_crlf seg = true := by
  induction fuel generalizing aux len stream with
  | zero => cases h
  | succ fuel ih =>
    simp only [read_segment_loop] at h
    by_cases hc :
        ((read_until_lf stream).1.length > 0 &&
          ends_with_crlf (aux ++ (read_until_lf stream).1)) = true
    · rw [if_pos hc] at h
      cases h
      exact (Bool.and_eq_true .. ▸ hc).2
    · rw [if_neg hc] at h
      exact ih _ _ _ h

/-- Claim C10: `read_segment` returns only when the accumulated segment
ends with the two-byte `CRLF` terminator; for every input stream that
reaches end of input before a `CRLF` has been accumulated (no `CRLF`
occurs in the stream), the loop never exits — for every amount of fuel the
fuelled model returns nothing, i.e. the source loop runs forever instead
of surfacing an error for the truncated segment. -/
theorem claim_C10 :
    (∀ fuel stream seg n rest,
      read_segment fuel stream = some (seg, n, rest) → ends_with_crlf seg = true) ∧
    (∀ stream, contains_crlf stream = false →
      ∀ fuel, read_segment fuel stream = none) := by
  constructor
  · intro fuel stream seg n rest h
    exact read_segment_loop_some_ends fuel [] 0 stream seg n rest h
  · intro stream h fuel
    exact read_segment_loop_none fuel [] 0 stream (by simpa using h)

theorem claim_C10_witness :
    ends_with_crlf [97, 13, 10] = true ∧
    read_segment 5 [97, 98, 99] = none :=
  ⟨claim_C10.1 1 [97, 13, 10] [97, 13, 10] 3 [] rfl,
   claim_C10.2 [97, 98, 99] (by decide) 5⟩

theorem freeze_to_whitespace_no_ws (l : List Nat)
    (h : (l.all fun b => !is_ascii_whitespace b) = true) :
    freeze_to_whitespace l = (l, []) := by
  unfold freeze_to_whitespace
  rw [(find_pos_none_iff _ l).mpr h]
  simp [skip_to_non_ws, find_pos]

/-- Claim C4 counterexample: the request line `GET` followed by `CRLF`
splits into a single token, yet reading the request line succeeds and
yields a request line with empty target and version tokens — no parse
error tagged `request line` is surfaced. -/
theorem claim_C4_counterexample :
    read_request_line 1 [71, 69, 84, 13, 10] =
      some (⟨[71, 69, 84], [], []⟩, []) := by
  rfl

/-- Claim C4, amended: whenever a segment is read, `read_request_line`
always succeeds — no parse error is ever produced for a token-deficient
request line (the `request line` tag in the source only wraps I/O errors
from reading the segment); in particular a line with no whitespace at all
parses to that line as the method with empty target and version tokens. -/
theorem claim_C4_amended :
    (∀ fuel stream seg n rest,
      read_segment fuel stream = some (seg, n, rest) →
        ∃ rl, read_request_line fuel stream = some (rl, rest)) ∧
    (∀ fuel stream seg n rest,
      read_segment fuel stream = some (seg, n, rest) →
        ((seg.take (n - 2)).all fun b => !is_ascii_whitespace b) = true →
          read_request_line fuel stream = some (⟨seg.take (n - 2), [], []⟩, rest)) := by
  constructor
  · intro fuel stream seg n rest h
    unfold read_request_line
    rw [h]
    exact ⟨_, rfl⟩
  · intro fuel stream seg n rest h hno
    unfold read_request_line
    rw [h]
    simp only [freeze_to_whitespace_no_ws _ hno]
    simp [freeze_to_whitespace_no_ws ([] : List Nat) rfl]

theorem claim_C4_witness :
    read_request_line 1 [80, 79, 83, 84, 13, 10] =
      some (⟨[80, 79, 83, 84], [], []⟩, []) :=
  claim_C4_amended.2 1 [80, 79, 83, 84, 13, 10] [80, 79, 83, 84, 13, 10] 6 []
    rfl (by decide)

theorem read_exact_spec (chunks : List (List Nat)) (n : Nat)
    (h : n ≤ chunks.flatten.length) :
    ∃ rest, read_exact chunks n = some (chunks.flatten.take n, rest) ∧
      rest.flatten = chunks.flatten.drop n := by
  induction chunks generalizing n with
  | nil =>
    simp only [List.flatten_nil, List.length_nil, Nat.le_zero] at h
    subst h
    exact ⟨[], rfl, rfl⟩
  | cons c rest ih =>
    by_cases hn : n = 0
    · subst hn
      exact ⟨c :: rest, by simp [read_exact], by simp⟩
    · by_cases hc : n ≤ c.length
      · refine ⟨c.drop n :: rest, ?_, ?_⟩
        · simp only [read_exact, hn, if_false, hc, if_true]
          rw [List.flatten_cons, List.take_append_of_le_length hc]
        · rw [List.flatten_cons, List.flatten_cons,
            List.drop_append_of_le_length hc]
      · have hlen : n - c.length ≤ rest.flatten.length := by
          simp only [List.flatten_cons, List.length_append] at h
          omega
        obtain ⟨rem, h1, h2⟩ := ih (n - c.length) hlen
        refine ⟨rem, ?_, ?_⟩
        · simp only [read_exact, hn, if_false, hc, if_false, h1]
          have hsplit : n = c.length + (n - c.length) := by omega
          rw [List.flatten_cons, hsplit, List.take_append]
          have harith : c.length + (n - c.length) - c.length = n - c.length := by
            omega
          rw [harith]
        · have hsplit : n = c.length + (n - c.length) := by omega
          rw [List.flatten_cons, hsplit, List.drop_append, h2]

/-- Claim C3: when the `Content-Length` header is absent the body length
defaults to zero; a zero length yields the empty in-memory body with the
stream untouched (no body-read I/O); a positive length `n` (not exceeding
the available bytes) consumes exactly the first `n` bytes of the stream —
gathered across however many underlying reads deliver them — into an
owned in-memory body, and every byte beyond position `n` remains
unconsumed. -/
theorem claim_C3 :
    (∀ m : HeaderMap, m.get CONTENT_LENGTH = none → content_length_of m = 0) ∧
    (∀ chunks, read_body 0 chunks = some (Body.empty, chunks)) ∧
    (∀ n chunks, 0 < n → n ≤ List.length (List.flatten chunks) →
      ∃ rest,
        read_body n chunks = some (Body.bytes (List.take n (List.flatten chunks)), rest) ∧
        List.flatten rest = List.drop n (List.flatten chunks)) := by
  refine ⟨?_, ?_, ?_⟩
  · intro m h
    simp [content_length_of, HeaderMap.read_nat, h]
  · intro chunks
    rfl
  · intro n chunks hpos hle
    obtain ⟨rest, h1, h2⟩ := read_exact_spec chunks n hle
    refine ⟨rest, ?_, h2⟩
    have hn : ¬n = 0 := by omega
    simp only [read_body, hn, if_false, h1, Option.map_some']

theorem claim_C3_witness :
    content_length_of ⟨[]⟩ = 0 ∧
    read_body 0 [[1, 2]] = some (Body.empty, [[1, 2]]) ∧
    ∃ rest,
      read_body 5 [[104, 101], [108, 108, 111, 33]] =
        some (Body.bytes (List.take 5 (List.flatten [[104, 101], [108, 108, 111, 33]])),
          rest) ∧
      List.flatten rest = List.drop 5 (List.flatten [[104, 101], [108, 108, 111, 33]]) :=
  ⟨claim_C3.1 ⟨[]⟩ rfl, claim_C3.2.1 [[1, 2]],
   claim_C3.2.2 5 [[104, 101], [108, 108, 111, 33]] (by decide) (by decide)⟩

/-- Claim C9: a file-open error of kind not-found or permission-denied
yields a 404 response, any other I/O error a 500 response; the same
classification applies to the metadata query inside `Body::file`. The
error is recovered into a `Response` locally — `ResponseBuilder::file`
is total and never propagates the error. -/
theorem claim_C9 (b : ResponseBuilder) (path : List Nat) :
    (∀ k mR, (b.file path (.error k) mR).status =
      (if io_error_is_404 k then StatusCode.not_found
       else StatusCode.internal_server_error)) ∧
    (∀ k, (b.file path (.ok ()) (.error k)).status =
      (if io_error_is_404 k then StatusCode.not_found
       else StatusCode.internal_server_error)) := by
  constructor
  · intro k mR
    by_cases hk : io_error_is_404 k = true <;>
      simp [ResponseBuilder.file, hk, ResponseBuilder.empty, ResponseBuilder.plain,
        build_response, ResponseBuilder.with_status, ResponseBuilder.header]
  · intro k
    by_cases hk : io_error_is_404 k = true <;>
      simp [ResponseBuilder.file, hk, ResponseBuilder.empty, ResponseBuilder.plain,
        build_response, ResponseBuilder.with_status, ResponseBuilder.header]

/-- Claim C1 counterexample: a response carrying `Content-Encoding: gzip`
whose codec subprocess exits with status 1 while emitting partial stdout
is NOT degraded to a 500: `Response::compress` keeps the original 200
status and uses the captured stdout as the body, contradicting the claim
that a non-zero exit yields a 500 with the error description and never
uses stdout. -/
theorem claim_C1_counterexample :
    (Response.compress
      { version := [72], status := .ok,
        headers := ⟨[(CONTENT_ENCODING, GZIP_TOKEN), (CONTENT_LENGTH, [51])]⟩,
        body := Body.bytes [97, 98, 99] }
      { spawn_ok := true, write_ok := true, flush_ok := true,
        wait_result := .ok (1, [80, 65, 82, 84]) }).status = StatusCode.ok ∧
    (Response.compress
      { version := [72], status := .ok,
        headers := ⟨[(CONTENT_ENCODING, GZIP_TOKEN), (CONTENT_LENGTH, [51])]⟩,
        body := Body.bytes [97, 98, 99] }
      { spawn_ok := true, write_ok := true, flush_ok := true,
        wait_result := .ok (1, [80, 65, 82, 84]) }).body =
      Body.bytes [80, 65, 82, 84] := by
  constructor <;> rfl

/-- Claim C1, amended: every compression failure — a missing program
configuration, spawn failure, or an I/O failure while writing or flushing
the program's input or awaiting its output — degrades the response to
status 500 with a `text/plain` body equal to that failure's error
description, never using the captured stdout and never falling back to
the original body; but a subprocess that runs to completion is never
treated as a failure: for every exit code, including non-zero ones, the
captured stdout becomes the body with `Content-Length` updated and the
original status kept (the non-zero status is only logged). -/
theorem claim_C1_amended (r : Response) (env : ProcEnv) (enc : Encoding)
    (hce : content_encoding_of r.headers = some enc) :
    (∀ code out, encoding_command_configured enc = true → env.spawn_ok = true →
      env.write_ok = true → env.flush_ok = true →
      env.wait_result = .ok (code, out) →
      r.compress env =
        { version := r.version, status := r.status,
          headers := r.headers.insert CONTENT_LENGTH
            (content_length_bytes out.length),
          body := Body.bytes out }) ∧
    (encoding_command_configured enc = false →
      r.compress env =
        { version := r.version, status := .internal_server_error,
          headers := ⟨[(CONTENT_TYPE, TEXT_PLAIN),
            (CONTENT_LENGTH, content_length_bytes NOT_CONFIGURED_MSG.length)]⟩,
          body := Body.bytes NOT_CONFIGURED_MSG }) ∧
    (encoding_command_configured enc = true → env.spawn_ok = false →
      r.compress env =
        { version := r.version, status := .internal_server_error,
          headers := ⟨[(CONTENT_TYPE, TEXT_PLAIN),
            (CONTENT_LENGTH, content_length_bytes SPAWN_MSG.length)]⟩,
          body := Body.bytes SPAWN_MSG }) ∧
    (∀ data, r.body = Body.bytes data →
      encoding_command_configured enc = true → env.spawn_ok = true →
      env.write_ok = false →
      r.compress env =
        { version := r.version, status := .internal_server_error,
          headers := ⟨[(CONTENT_TYPE, TEXT_PLAIN),
            (CONTENT_LENGTH, content_length_bytes WRITE_INPUT_MSG.length)]⟩,
          body := Body.bytes WRITE_INPUT_MSG }) ∧
    (∀ data, r.body = Body.bytes data →
      encoding_command_configured enc = true → env.spawn_ok = true →
      env.write_ok = true → env.flush_ok = false →
      r.compress env =
        { version := r.version, status := .internal_server_error,
          headers := ⟨[(CONTENT_TYPE, TEXT_PLAIN),
            (CONTENT_LENGTH, content_length_bytes FLUSH_INPUT_MSG.length)]⟩,
          body := Body.bytes FLUSH_INPUT_MSG }) ∧
    (∀ u, env.wait_result = .error u →
      encoding_command_configured enc = true → env.spawn_ok = true →
      env.write_ok = true → env.flush_ok = true →
      r.compress env =
        { version := r.version, status := .internal_server_error,
          headers := ⟨[(CONTENT_TYPE, TEXT_PLAIN),
            (CONTENT_LENGTH, content_length_bytes WAIT_MSG.length)]⟩,
          body := Body.bytes WAIT_MSG }) := by
  refine ⟨?_, ?_, ?_, ?_, ?_, ?_⟩
  · intro code out hcfg hs hw hf hwait
    have hsc : system_compress enc r.body env = .ok (Body.bytes out) := by
      unfold system_compress
      cases r.body <;> simp [hcfg, hs, hw, hf, hwait]
    simp only [Response.compress, hce, hsc, Body.len]
  · intro hcfg
    have hsc : system_compress enc r.body env = .error NOT_CONFIGURED_MSG := by
      unfold system_compress
      simp [hcfg]
    simp only [Response.compress, hce, hsc, Body.len]
  · intro hcfg hs
    have hsc : system_compress enc r.body env = .error SPAWN_MSG := by
      unfold system_compress
      simp [hcfg, hs]
    simp only [Response.compress, hce, hsc, Body.len]
  · intro data hbody hcfg hs hw
    have hsc : system_compress enc r.body env = .error WRITE_INPUT_MSG := by
      unfold system_compress
      rw [hbody]
      simp [hcfg, hs, hw]
    simp only [Response.compress, hce, hsc, Body.len]
  · intro data hbody hcfg hs hw hf
    have hsc : system_compress enc r.body env = .error FLUSH_INPUT_MSG := by
      unfold system_compress
      rw [hbody]
      simp [hcfg, hs, hw, hf]
    simp only [Response.compress, hce, hsc, Body.len]
  · intro u hwait hcfg hs hw hf
    have hsc : system_compress enc r.body env = .error WAIT_MSG := by
      unfold system_compress
      cases r.body <;> simp [hcfg, hs, hw, hf, hwait]
    simp only [Response.compress, hce, hsc, Body.len]

theorem claim_C1_witness :
    (Response.compress
      { version := [72], status := .not_found,
        headers := ⟨[(CONTENT_ENCODING, BR_TOKEN), (CONTENT_LENGTH, [48])]⟩,
        body := Body.bytes [120] }
      { spawn_ok := true, write_ok := true, flush_ok := true,
        wait_result := .ok (2, [1, 2]) } =
      { version := [72], status := .not_found,
        headers := (HeaderMap.mk
          [(CONTENT_ENCODING, BR_TOKEN), (CONTENT_LENGTH, [48])]).insert
            CONTENT_LENGTH (content_length_bytes 2),
        body := Body.bytes [1, 2] }) ∧
    (Response.compress
      { version := [72], status := .ok,
        headers := ⟨[(CONTENT_ENCODING, GZIP_TOKEN)]⟩,
        body := Body.bytes [120] }
      { spawn_ok := false, write_ok := true, flush_ok := true,
        wait_result := .ok (0, []) } =
      { version := [72], status := .internal_server_error,
        headers := ⟨[(CONTENT_TYPE, TEXT_PLAIN),
          (CONTENT_LENGTH, content_length_bytes SPAWN_MSG.length)]⟩,
        body := Body.bytes SPAWN_MSG }) ∧
    (Response.compress
      { version := [72], status := .ok,
        headers := ⟨[(CONTENT_ENCODING, DEFLATE_TOKEN)]⟩,
        body := Body.bytes [120] }
      { spawn_ok := true, write_ok := true, flush_ok := true,
        wait_result := .ok (0, []) } =
      { version := [72], status := .internal_server_error,
        headers := ⟨[(CONTENT_TYPE, TEXT_PLAIN),
          (CONTENT_LENGTH, content_length_bytes NOT_CONFIGURED_MSG.length)]⟩,
        body := Body.bytes NOT_CONFIGURED_MSG }) :=
  ⟨(claim_C1_amended
      { version := [72], status := .not_found,
        headers := ⟨[(CONTENT_ENCODING, BR_TOKEN), (CONTENT_LENGTH, [48])]⟩,
        body := Body.bytes [120] }
      { spawn_ok := true, write_ok := true, flush_ok := true,
        wait_result := .ok (2, [1, 2]) }
      .br rfl).1 2 [1, 2] rfl rfl rfl rfl rfl,
   (claim_C1_amended
      { version := [72], status := .ok,
        headers := ⟨[(CONTENT_ENCODING, GZIP_TOKEN)]⟩,
        body := Body.bytes [120] }
      { spawn_ok := false, write_ok := true, flush_ok := true,
        wait_result := .ok (0, []) }
      .gzip rfl).2.2.1 rfl rfl,
   (claim_C1_amended
      { version := [72], status := .ok,
        headers := ⟨[(CONTENT_ENCODING, DEFLATE_TOKEN)]⟩,
        body := Body.bytes [120] }
      { spawn_ok := true, write_ok := true, flush_ok := true,
        wait_result := .ok (0, []) }
      .deflate rfl).2.1 rfl⟩

theorem write_response_decomp (r : Response) (env : ProcEnv) :
    write_response r env =
      status_line_bytes (r.compress env) ++ (serialized_headers r env).flatten
        ++ CRLF ++ written_body r env := by
  rfl

theorem hash_insert_mem (m : List (List Nat × List Nat)) (k v : List Nat) :
    (k, v) ∈ hash_insert m k v := by
  unfold hash_insert
  by_cases h : (m.any fun e => e.1 == k) = true
  · rw [if_pos h]
    obtain ⟨e, he, hk⟩ := List.any_eq_true.mp h
    exact List.mem_map.mpr ⟨e, he, by simp [hk]⟩
  · rw [if_neg h]
    exact List.mem_append_right m (List.mem_singleton.mpr rfl)

theorem assoc_mem (m : HeaderMap) (k v k0 w : List Nat)
    (hmem : (k0, w) ∈ m.entries) (hm : byte_matches k0 k = true) :
    (k, v) ∈ (m.assoc k v).entries := by
  unfold HeaderMap.assoc
  exact List.mem_map.mpr ⟨(k0, w), hmem, by simp [hm]⟩

theorem system_compress_ok_bytes (enc : Encoding) (body : Body) (env : ProcEnv)
    (b : Body) (h : system_compress enc body env = .ok b) :
    ∃ out, b = Body.bytes out := by
  unfold system_compress at h
  by_cases h1 : encoding_command_configured enc = false
  · rw [if_pos h1] at h; cases h
  · rw [if_neg h1] at h
    by_cases h2 : env.spawn_ok = false
    · rw [if_pos h2] at h; cases h
    · rw [if_neg h2] at h
      cases body with
      | bytes data =>
        by_cases h3 : env.write_ok = false
        · simp only [if_pos h3] at h; cases h
        · by_cases h4 : env.flush_ok = false
          · simp only [if_neg h3, if_pos h4] at h; cases h
          · simp only [if_neg h3, if_neg h4] at h
            cases hw : env.wait_result with
            | error u => rw [hw] at h; simp at h
            | ok r =>
              rw [hw] at h
              simp only [Except.ok.injEq] at h
              exact ⟨r.2, h.symm⟩
      | file fb =>
        cases hw : env.wait_result with
        | error u => rw [hw] at h; simp at h
        | ok r =>
          rw [hw] at h
          simp only [Except.ok.injEq] at h
          exact ⟨r.2, h.symm⟩

theorem compress_build_content_length (v : List Nat) (st : StatusCode)
    (hm : List (List Nat × List Nat)) (body : Body) (env : ProcEnv)
    (hwf : Body.len body = (Body.payload body).length) :
    (CONTENT_LENGTH, content_length_bytes
        (Body.payload ((build_response v st hm body).compress env).body).length) ∈
      ((build_response v st hm body).compress env).headers.entries := by
  cases hce : content_encoding_of (build_response v st hm body).headers with
  | none =>
    simp only [Response.compress, hce]
    simp only [build_response, hwf]
    exact hash_insert_mem hm CONTENT_LENGTH _
  | some enc =>
    cases hsc : system_compress enc (build_response v st hm body).body env with
    | error e =>
      simp only [Response.compress, hce, hsc]
      simp [Body.len, Body.payload]
    | ok b =>
      obtain ⟨out, rfl⟩ := system_compress_ok_bytes _ _ _ _ hsc
      simp only [Response.compress, hce, hsc]
      simp only [Body.len, Body.payload, HeaderMap.insert]
      exact assoc_mem _ _ _ CONTENT_LENGTH (content_length_bytes body.len)
        (hash_insert_mem hm CONTENT_LENGTH _) (byte_matches_refl _)

theorem build_response_has_cl (env : ProcEnv) (v : List Nat) (st : StatusCode)
    (hm : List (List Nat × List Nat)) (body : Body)
    (hwf : Body.len body = (Body.payload body).length) :
    header_line (CONTENT_LENGTH, content_length_bytes
        (written_body (build_response v st hm body) env).length) ∈
      serialized_headers (build_response v st hm body) env := by
  unfold serialized_headers written_body header_lines
  exact List.mem_map_of_mem _ (compress_build_content_length v st hm body env hwf)

/-- Claim C2: every response produced by the builder (`empty`, `plain`,
`file`, or `build`) and serialized by the writer carries, in its
serialized header block, a `Content-Length` line whose decimal value
equals the byte length of the body the writer actually emits — after any
compression step the writer performs. -/
theorem claim_C2 (b : ResponseBuilder) (env : ProcEnv) (data path : List Nat)
    (oR : Except IOErrorKind Unit) (mR : Except IOErrorKind (List Nat)) :
    (header_line (CONTENT_LENGTH,
        content_length_bytes (written_body b.empty env).length) ∈
      serialized_headers b.empty env) ∧
    (header_line (CONTENT_LENGTH,
        content_length_bytes (written_body (b.plain data) env).length) ∈
      serialized_headers (b.plain data) env) ∧
    (header_line (CONTENT_LENGTH,
        content_length_bytes (written_body b.build env).length) ∈
      serialized_headers b.build env) ∧
    (header_line (CONTENT_LENGTH,
        content_length_bytes (written_body (b.file path oR mR) env).length) ∈
      serialized_headers (b.file path oR mR) env) := by
  refine ⟨?_, ?_, ?_, ?_⟩
  · simp only [ResponseBuilder.empty, ResponseBuilder.plain]
    exact build_response_has_cl env _ _ _ _ rfl
  · simp only [ResponseBuilder.plain]
    exact build_response_has_cl env _ _ _ _ rfl
  · simp only [ResponseBuilder.build]
    exact build_response_has_cl env _ _ _ _ rfl
  · cases oR with
    | error k =>
      by_cases hk : io_error_is_404 k = true <;>
        simp only [ResponseBuilder.file, hk, if_true, if_false,
          ResponseBuilder.empty, ResponseBuilder.plain] <;>
        exact build_response_has_cl env _ _ _ _ rfl
    | ok u =>
      cases mR with
      | error k =>
        by_cases hk : io_error_is_404 k = true <;>
          simp only [ResponseBuilder.file, hk, if_true, if_false,
            ResponseBuilder.empty, ResponseBuilder.plain] <;>
          exact build_response_has_cl env _ _ _ _ rfl
      | ok content =>
        simp only [ResponseBuilder.file]
        exact build_response_has_cl env _ _ _ (Body.mk_file path content) rfl

theorem find_pos_some_split (p : Nat → Bool) (l : List Nat) (i : Nat)
    (h : find_pos p l = some i) :
    ∃ a, l = l.take i ++ a :: l.drop (i + 1) ∧ p a = true ∧
      ∀ x ∈ l.take i, p x = false := by
  induction l generalizing i with
  | nil => simp [find_pos] at h
  | cons b bs ih =>
    simp only [find_pos] at h
    by_cases hb : p b = true
    · rw [if_pos hb] at h
      cases h
      exact ⟨b, by simp, hb, by simp⟩
    · rw [if_neg hb] at h
      cases hfp : find_pos p bs with
      | none => rw [hfp] at h; simp at h
      | some j =>
        rw [hfp] at h
        simp only [Option.map_some', Option.some.injEq] at h
        subst h
        obtain ⟨a, hsplit, hpa, hall⟩ := ih j hfp
        refine ⟨a, ?_, hpa, ?_⟩
        · simp only [List.take_succ_cons, List.drop_succ_cons, List.cons_append,
            List.cons.injEq, true_and]
          exact hsplit
        · intro x hx
          simp only [List.take_succ_cons, List.mem_cons] at hx
          rcases hx with rfl | hx
          · simpa using hb
          · exact hall x hx

theorem split_comma_ne_nil (v : List Nat) : split_comma v ≠ [] := by
  cases v with
  | nil => simp [split_comma]
  | cons b bs =>
    simp only [split_comma]
    by_cases hb : (b == 44) = true
    · simp [hb]
    · simp only [hb, Bool.false_eq_true, if_false]
      cases h : split_comma bs <;> simp

theorem split_comma_no_comma (v : List Nat) (h : ∀ x ∈ v, ¬x = 44) :
    split_comma v = [v] := by
  induction v with
  | nil => rfl
  | cons b bs ih =>
    have hb : ¬(b == 44) = true := by simpa using h b (by simp)
    simp only [split_comma, hb, Bool.false_eq_true, if_false]
    rw [ih fun x hx => h x (by simp [hx])]

theorem split_comma_prepend (p x t : List Nat) (ts : List (List Nat))
    (hp : ∀ b ∈ p, ¬b = 44) (hx : split_comma x = t :: ts) :
    split_comma (p ++ x) = (p ++ t) :: ts := by
  induction p with
  | nil => simpa using hx
  | cons b bs ih =>
    have hb : ¬(b == 44) = true := by simpa using hp b (by simp)
    simp only [List.cons_append, split_comma, hb, Bool.false_eq_true, if_false,
      List.append_eq]
    rw [ih fun c hc => hp c (by simp [hc])]

theorem dropWhile_ws_append (w t : List Nat)
    (hw : ∀ b ∈ w, is_ascii_whitespace b = true) :
    (w ++ t).dropWhile is_ascii_whitespace = t.dropWhile is_ascii_whitespace := by
  induction w with
  | nil => rfl
  | cons b bs ih =>
    simp only [List.cons_append, List.dropWhile_cons, hw b (by simp), if_true]
    exact ih fun c hc => hw c (by simp [hc])

theorem dropWhile_ws_all (w : List Nat)
    (hw : ∀ b ∈ w, is_ascii_whitespace b = true) :
    w.dropWhile is_ascii_whitespace = [] := by
  have := dropWhile_ws_append w [] hw
  simpa using this

theorem encoding_try_from_ws_none (l : List Nat)
    (hl : ∀ b ∈ l, is_ascii_whitespace b = true) :
    encoding_try_from l = none := by
  have key : ∀ (tok : List Nat) (b : Nat), b ∈ tok →
      is_ascii_whitespace b = false → (l == tok) = false := by
    intro tok b hb hws
    rw [beq_eq_false_iff_ne]
    intro heq
    rw [← heq] at hb
    rw [hl b hb] at hws
    cases hws
  simp [encoding_try_from,
    key GZIP_TOKEN 103 (by decide) (by decide),
    key COMPRESS_TOKEN 99 (by decide) (by decide),
    key DEFLATE_TOKEN 100 (by decide) (by decide),
    key BR_TOKEN 98 (by decide) (by decide),
    key ZSTD_TOKEN 122 (by decide) (by decide)]

theorem dropWhile_head_false (p : Nat → Bool) (l : List Nat) (c : Nat)
    (cs : List Nat) (h : l.dropWhile p = c :: cs) : p c = false := by
  induction l with
  | nil => cases h
  | cons d ds ih =>
    rw [List.dropWhile_cons] at h
    by_cases hd : p d = true
    · rw [if_pos hd] at h; exact ih h
    · rw [if_neg hd] at h; cases h; simpa using hd

theorem aef_skip_spec (n : Nat)
    (ih : ∀ v : List Nat, v.length ≤ n →
      accept_encoding_from v = accept_encoding_spec v)
    (r : List Nat) (hr : r.length ≤ n) :
    accept_encoding_from (skip_to_non_ws r) =
      List.filterMap encoding_try_from
        ((split_comma r).map fun s => s.dropWhile is_ascii_whitespace) := by
  by_cases hall : (r.all is_ascii_whitespace) = true
  · have hmem : ∀ b ∈ r, is_ascii_whitespace b = true := List.all_eq_true.mp hall
    have hskip : skip_to_non_ws r = r := by
      rw [skip_to_non_ws_eq_dropWhile, if_pos hall]
    rw [hskip, ih r hr]
    have hnc : ∀ x ∈ r, ¬x = 44 := by
      intro x hx heq
      subst heq
      exact absurd (hmem 44 hx) (by decide)
    unfold accept_encoding_spec
    rw [split_comma_no_comma r hnc]
    simp only [List.map_cons, List.map_nil, List.filterMap_cons, List.filterMap_nil]
    rw [encoding_try_from_ws_none r hmem, dropWhile_ws_all r hmem]
    rfl
  · have hskip : skip_to_non_ws r = r.dropWhile is_ascii_whitespace := by
      rw [skip_to_non_ws_eq_dropWhile, if_neg hall]
    have hw : ∀ b ∈ r.takeWhile is_ascii_whitespace, is_ascii_whitespace b = true :=
      fun b hb => List.mem_takeWhile_imp hb
    have hdecomp : r.takeWhile is_ascii_whitespace ++ r.dropWhile is_ascii_whitespace
        = r := List.takeWhile_append_dropWhile is_ascii_whitespace r
    have hr1ne : r.dropWhile is_ascii_whitespace ≠ [] := by
      intro h0
      apply hall
      rw [List.all_eq_true]
      intro x hx
      rw [← hdecomp, h0, List.append_nil] at hx
      exact hw x hx
    obtain ⟨t1, ts, hsplit1⟩ :
        ∃ t1 ts, split_comma (r.dropWhile is_ascii_whitespace) = t1 :: ts := by
      cases h : split_comma (r.dropWhile is_ascii_whitespace) with
      | nil => exact absurd h (split_comma_ne_nil _)
      | cons a b => exact ⟨a, b, rfl⟩
    have ht1 : t1.dropWhile is_ascii_whitespace = t1 := by
      cases hr1c : r.dropWhile is_ascii_whitespace with
      | nil => exact absurd hr1c hr1ne
      | cons c cs =>
        have hc : is_ascii_whitespace c = false :=
          dropWhile_head_false _ r c cs hr1c
        rw [hr1c] at hsplit1
        simp only [split_comma] at hsplit1
        by_cases hcc : (c == 44) = true
        · rw [if_pos hcc] at hsplit1
          cases hsplit1
          rfl
        · rw [if_neg hcc] at hsplit1
          cases hsc : split_comma cs with
          | nil => exact absurd hsc (split_comma_ne_nil cs)
          | cons a b =>
            rw [hsc] at hsplit1
            cases hsplit1
            simp [List.dropWhile_cons, hc]
    have hlen1 : (r.dropWhile is_ascii_whitespace).length ≤ n :=
      le_trans (List.dropWhile_sublist is_ascii_whitespace).length_le hr
    have hscr : split_comma r = (r.takeWhile is_ascii_whitespace ++ t1) :: ts := by
      conv_lhs => rw [← hdecomp]
      exact split_comma_prepend _ _ t1 ts
        (fun b hb => by
          intro heq
          subst heq
          exact absurd (hw 44 hb) (by decide))
        hsplit1
    rw [hskip, ih _ hlen1]
    unfold accept_encoding_spec
    rw [hsplit1, hscr]
    simp only [List.map_cons, List.filterMap_cons]
    rw [dropWhile_ws_append _ t1 hw, ht1]

theorem aef_eq_spec_aux :
    ∀ n (v : List Nat), v.length ≤ n →
      accept_encoding_from v = accept_encoding_spec v := by
  intro n
  induction n with
  | zero =>
    intro v hv
    have hv0 : v = [] := List.length_eq_zero.mp (Nat.le_zero.mp hv)
    subst hv0
    rw [accept_encoding_from_last [] (by rfl)]
    rfl
  | succ n ih =>
    intro v hv
    cases hfb : find_byte 44 v with
    | none =>
      rw [accept_encoding_from_last _ hfb]
      have hnc : ∀ x ∈ v, ¬x = 44 := by
        have hall := (find_pos_none_iff _ v).mp hfb
        rw [List.all_eq_true] at hall
        intro x hx heq
        have hb := hall x hx
        subst heq
        simp at hb
      unfold accept_encoding_spec
      rw [split_comma_no_comma v hnc]
      cases henc : encoding_try_from v <;> simp [henc]
    | some pos =>
      obtain ⟨a, hsplit, hpa, hfree⟩ := find_pos_some_split _ v pos hfb
      have ha : a = 44 := by simpa using hpa
      subst ha
      rw [accept_encoding_from_comma _ pos hfb]
      have hlt : pos < v.length := find_pos_lt_length _ _ _ hfb
      have hr_len : (v.drop (pos + 1)).length ≤ n := by
        rw [List.length_drop]
        omega
      rw [aef_skip_spec n ih (v.drop (pos + 1)) hr_len]
      unfold accept_encoding_spec
      have hsc : split_comma v = v.take pos :: split_comma (v.drop (pos + 1)) := by
        conv_lhs => rw [hsplit]
        have h44 : split_comma (44 :: v.drop (pos + 1)) =
            [] :: split_comma (v.drop (pos + 1)) := by
          simp [split_comma]
        have := split_comma_prepend (v.take pos) (44 :: v.drop (pos + 1)) []
          (split_comma (v.drop (pos + 1)))
          (fun b hb => by
            intro heq
            have := hfree b hb
            subst heq
            simp at this)
          h44
        simpa using this
      rw [hsc]
      simp only [List.map_cons, List.filterMap_cons]
      cases henc : encoding_try_from (v.take pos) <;> simp [henc]

theorem aef_eq_spec (v : List Nat) :
    accept_encoding_from v = accept_encoding_spec v :=
  aef_eq_spec_aux v.length v le_rfl

/-- Claim C8 counterexample: parsing does NOT de-duplicate — the value
`gzip,gzip` parses to the two-element list `[gzip, gzip]` rather than
`[gzip]`; and the leading whitespace of the FIRST token is not trimmed —
the value of a single token ` gzip` (leading space) parses to the empty
list instead of `[gzip]`. -/
theorem claim_C8_counterexample :
    accept_encoding_from (str_bytes ['g','z','i','p',',','g','z','i','p']) =
      [Encoding.gzip, Encoding.gzip] ∧
    [Encoding.gzip, Encoding.gzip] ≠ [Encoding.gzip] ∧
    accept_encoding_from (str_bytes [' ','g','z','i','p']) = [] := by
  refine ⟨?_, by decide, ?_⟩
  · rw [accept_encoding_from_comma _ 4 (by decide)]
    have hs : skip_to_non_ws
        ((str_bytes ['g','z','i','p',',','g','z','i','p']).drop (4 + 1)) =
        str_bytes ['g','z','i','p'] := by decide
    rw [hs, accept_encoding_from_last _ (by decide)]
    decide
  · rw [accept_encoding_from_last _ (by decide)]
    decide

/-- Claim C8, amended: parsing splits on `,`, trims the leading whitespace
of every token following a comma (the first token is taken verbatim),
silently drops every unrecognized token, and yields the recognized
encodings in client order with duplicates preserved (no de-duplication);
selection returns the first parsed encoding lying in the supported set —
so `gzip, br` with only `br` supported selects `br`, and a list all of
whose parsed encodings are unsupported selects none. -/
theorem claim_C8_amended (v : List Nat) (supported : List Encoding) :
    accept_encoding_from v = accept_encoding_spec v ∧
    AcceptEncoding.select (accept_encoding_from v) supported =
      (accept_encoding_spec v).find? (fun e => supported.contains e) ∧
    AcceptEncoding.select
      (accept_encoding_from (str_bytes ['g','z','i','p',',',' ','b','r']))
      [Encoding.br] = some Encoding.br ∧
    (((accept_encoding_from v).all fun e => !supported.contains e) = true →
      AcceptEncoding.select (accept_encoding_from v) supported = none) := by
  refine ⟨aef_eq_spec v, ?_, ?_, ?_⟩
  · unfold AcceptEncoding.select
    rw [aef_eq_spec v]
  · rw [accept_encoding_from_comma _ 4 (by decide)]
    have hs : skip_to_non_ws
        ((str_bytes ['g','z','i','p',',',' ','b','r']).drop (4 + 1)) =
        str_bytes ['b','r'] := by decide
    rw [hs, accept_encoding_from_last _ (by decide)]
    decide
  · intro hall
    unfold AcceptEncoding.select
    rw [List.find?_eq_none]
    intro e he
    have := List.all_eq_true.mp hall e he
    simpa using this

theorem claim_C8_witness :
    AcceptEncoding.select (accept_encoding_from ZSTD_TOKEN) [] = none :=
  (claim_C8_amended ZSTD_TOKEN []).2.2.2 (by
    rw [accept_encoding_from_last _ (by decide)]
    decide)
